import Mathlib

/-!
Verification of the capture-analyze-fallback pipeline of the
Sherlock-Ai-Detective front-end.

The development shallowly embeds the pipeline code:
 * a dynamic JSON value model (`JValue`) for the parsed model response,
   with JavaScript-style field access, field assignment and truthiness;
 * the response normalization block of `callGemini`
   (src/services/geminiService.ts) as `normalizeParsed`;
 * the error classification and single-fallback control flow of
   `analyzeEvidence` (src/services/geminiService.ts);
 * the session-memory merge and error handling of `handleCapture`
   (src/App.tsx);
 * the frame downscaling of `handleScan` (CameraHUD component).

Numbers are modelled as rationals: every numeric literal occurring in the
code (0.5, 0.8, 1024, quality factors) and every decimal string is exactly
representable, and none of the verified claims depends on binary
floating-point rounding.
-/

/-- Dynamic JSON-like value, the shape of `JSON.parse` output that the
normalization block of `callGemini` operates on. -/
inductive JValue where
  | null : JValue
  | bool : Bool → JValue
  | num : ℚ → JValue
  | str : String → JValue
  | arr : List JValue → JValue
  | obj : List (String × JValue) → JValue

/-- Look up the value of the first entry with key `k` (JavaScript property
read `o[k]`; `none` models `undefined`). -/
def getEntry? (fields : List (String × JValue)) (k : String) : Option JValue :=
  match fields with
  | [] => none
  | (k₀, v) :: rest => if k₀ = k then some v else getEntry? rest k

/-- Replace the value of the existing entry with key `k`, or append a new
entry (JavaScript property assignment `o[k] = v`). -/
def setEntry (fields : List (String × JValue)) (k : String) (v : JValue) :
    List (String × JValue) :=
  match fields with
  | [] => [(k, v)]
  | (k₀, v₀) :: rest =>
      if k₀ = k then (k₀, v) :: rest else (k₀, v₀) :: setEntry rest k v

/-- Property read on a dynamic value; reading a property of a non-object
yields `undefined` (`none`). -/
def JValue.getField? : JValue → String → Option JValue
  | .obj fields, k => getEntry? fields k
  | _, _ => none

/-- Property assignment on a dynamic value; assignment on a non-object
leaves the value unchanged. -/
def JValue.setField : JValue → String → JValue → JValue
  | .obj fields, k, v => .obj (setEntry fields k v)
  | other, _, _ => other

/-- JavaScript falsiness of a present value: `null`, `false`, `0` and the
empty string are falsy; objects and arrays are always truthy. -/
def JValue.isFalsy : JValue → Bool
  | .null => true
  | .bool b => !b
  | .num q => q == 0
  | .str s => s == ""
  | .arr _ => false
  | .obj _ => false

/-- Truthiness of the property read `o[k]`: false when the property is
absent (`undefined`) or its value is falsy.  This is the test performed by
the guards `if (!parsed.scan_data)`, `if (!d.evidence)` etc. -/
def jsFieldTruthy (v : JValue) (k : String) : Bool :=
  match v.getField? k with
  | none => false
  | some w => !w.isFalsy

/-! ### `parseFloat` -/

/-- Numeric value of a decimal digit character. -/
def digitVal (c : Char) : ℕ := c.toNat - 48

/-- Accumulate a digit run into a natural number. -/
def digitsToNat (ds : List Char) : ℕ :=
  ds.foldl (fun a c => 10 * a + digitVal c) 0

/-- JavaScript `parseFloat`: skip leading whitespace, read an optional
sign, an integer digit run, an optional fraction and an optional exponent,
parsing the longest valid numeric prefix; `none` models `NaN` (no digits
found at the front). -/
def jsParseFloat (s : String) : Option ℚ :=
  let cs := s.toList.dropWhile fun c =>
    c == ' ' || c == '\t' || c == '\n' || c == '\r'
  let signAndRest : Bool × List Char :=
    match cs with
    | '-' :: rest => (true, rest)
    | '+' :: rest => (false, rest)
    | _ => (false, cs)
  let neg := signAndRest.1
  let cs₁ := signAndRest.2
  let intPart := cs₁.takeWhile Char.isDigit
  let cs₂ := cs₁.dropWhile Char.isDigit
  let fracPart :=
    match cs₂ with
    | '.' :: rest => rest.takeWhile Char.isDigit
    | _ => []
  let cs₃ :=
    match cs₂ with
    | '.' :: rest => rest.dropWhile Char.isDigit
    | _ => cs₂
  if intPart.isEmpty && fracPart.isEmpty then none
  else
    let expVal : ℤ :=
      match cs₃ with
      | 'e' :: rest | 'E' :: rest =>
        let expSignAndRest : Bool × List Char :=
          match rest with
          | '-' :: r => (true, r)
          | '+' :: r => (false, r)
          | _ => (false, rest)
        let eds := expSignAndRest.2.takeWhile Char.isDigit
        if eds.isEmpty then 0
        else if expSignAndRest.1 then -(digitsToNat eds : ℤ)
        else (digitsToNat eds : ℤ)
      | _ => 0
    let mag : ℚ :=
      ((digitsToNat intPart : ℚ) +
        (digitsToNat fracPart : ℚ) / (10 ^ fracPart.length)) * 10 ^ expVal
    some (if neg then -mag else mag)

/-- Value of `parseFloat(String(v))`, the score coercion used by
`callGemini`.  For a number, string conversion followed by `parseFloat`
recovers the number itself; for booleans, `null` and plain objects the
string forms ("true", "false", "null", "[object Object]") parse to `NaN`;
for an array, `String` joins the stringified elements with commas, so
`parseFloat` reads exactly the numeric prefix contributed by the first
element. -/
def jsParseFloatOfValue : JValue → Option ℚ
  | .num q => some q
  | .str s => jsParseFloat s
  | .arr (x :: _) => jsParseFloatOfValue x
  | _ => none

/-! ### The normalization block of `callGemini`
(src/services/geminiService.ts, `--- NORMALIZATION & SAFETY ---`). -/

/-- The neutral-default ScanData substituted when `scan_data` is missing. -/
def defaultScanData : JValue :=
  .obj [("gender", .str "Unknown"),
        ("age_range", .str "Unknown"),
        ("environment", .str "Unknown"),
        ("attention_score", .num (1/2)),
        ("posture_score", .num (1/2)),
        ("stance", .str "Indeterminate"),
        ("balance", .str "Steady")]

/-- The two score keys coerced by `callGemini` (`const scoreKeys = ...`). -/
def scoreKeys : List String := ["attention_score", "posture_score"]

/-- One iteration of the `scoreKeys.forEach` body: if the property is
present (`!== undefined`), overwrite it with `parseFloat(String(value))`,
substituting 0.5 when that is `NaN`; if absent, leave the object alone. -/
def coerceScoreField (sd : JValue) (key : String) : JValue :=
  match sd.getField? key with
  | none => sd
  | some v =>
      sd.setField key (.num (match jsParseFloatOfValue v with
        | some q => q
        | none => 1/2))

/-- The whole `scoreKeys.forEach` loop. -/
def coerceScores (sd : JValue) : JValue :=
  scoreKeys.foldl coerceScoreField sd

/-- One guarded default of the per-deduction `forEach` body
(`if (!d.evidence) d.evidence = []` and the analogous `logic_steps`
line): insert an empty array when the property is absent or falsy.
Property assignment on a non-object entry does not change the stored
element. -/
def ensureArrField (d : JValue) (k : String) : JValue :=
  if jsFieldTruthy d k then d else d.setField k (.arr [])

/-- The per-deduction `forEach` body: default `evidence`, then
`logic_steps`. -/
def normalizeDeduction (d : JValue) : JValue :=
  ensureArrField (ensureArrField d "evidence") "logic_steps"

/-- First normalization step: `if (!parsed.scan_data) parsed.scan_data =
{...defaults}`. -/
def ensureScanData (parsed : JValue) : JValue :=
  if jsFieldTruthy parsed "scan_data" then parsed
  else parsed.setField "scan_data" defaultScanData

/-- Second normalization step: run the score coercion loop on the (now
present) `scan_data` object, writing the coerced object back. -/
def applyScoreCoercion (p : JValue) : JValue :=
  match p.getField? "scan_data" with
  | some sd => p.setField "scan_data" (coerceScores sd)
  | none => p

/-- Third normalization step: `if (!parsed.deductions ||
!Array.isArray(parsed.deductions)) parsed.deductions = []` followed by the
per-deduction `forEach`. -/
def applyDeductionDefaults (p : JValue) : JValue :=
  p.setField "deductions"
    (match p.getField? "deductions" with
      | some (.arr ds) => .arr (ds.map normalizeDeduction)
      | _ => .arr [])

/-- The normalization performed by `callGemini` on the parsed response
before it is returned (`return parsed as SherlockAnalysis`):
substitute the full default `scan_data` when that property is falsy or
absent, coerce the two score fields, replace a missing or non-array
`deductions` by the empty array and default the per-deduction lists. -/
def normalizeParsed (parsed : JValue) : JValue :=
  applyDeductionDefaults (applyScoreCoercion (ensureScanData parsed))

/-- Whether the property `k` is present with an array value — the negation
of the guard `!parsed.deductions || !Array.isArray(parsed.deductions)`
restricted to present-and-truthy-or-not checks: `false` means the
`deductions` slot is missing or not an array. -/
def isArrayEntry (fs : List (String × JValue)) (k : String) : Bool :=
  match getEntry? fs k with
  | some (.arr _) => true
  | _ => false

/-! ### Error classification and fallback
(`analyzeEvidence` in src/services/geminiService.ts and the catch block of
`handleCapture` in src/App.tsx). -/

/-- Prefix test on character lists (`hay` starts with `needle`). -/
def charsStartWith : List Char → List Char → Bool
  | _, [] => true
  | [], _ :: _ => false
  | h :: hs, n :: ns => h == n && charsStartWith hs ns

/-- Substring test on character lists. -/
def charsContain : List Char → List Char → Bool
  | [], needle => needle.isEmpty
  | h :: hs, needle => charsStartWith (h :: hs) needle || charsContain hs needle

/-- JavaScript `hay.includes(needle)`. -/
def strIncludes (hay needle : String) : Bool :=
  charsContain hay.toList needle.toList

/-- An error thrown by a model call: its `message` string and optional
HTTP `status` code. -/
structure GenError where
  message : String
  status : Option ℕ
deriving DecidableEq

/-- `err.message?.includes('RESOURCE_EXHAUSTED') || err.status === 429`. -/
def isQuotaError (e : GenError) : Bool :=
  strIncludes e.message "RESOURCE_EXHAUSTED" || e.status == some 429

/-- `err.message?.includes('INVALID_ARGUMENT') || err.status === 400`. -/
def isArgError (e : GenError) : Bool :=
  strIncludes e.message "INVALID_ARGUMENT" || e.status == some 400

/-- The two model identifiers used by `analyzeEvidence`. -/
inductive ModelName where
  | pro : ModelName
  | flash : ModelName
deriving DecidableEq

/-- Result of `analyzeEvidence` given the outcomes of the (at most two)
`callGemini` invocations: return the primary result; on a primary failure
classified as quota or invalid-argument, return whatever the secondary
call produces (success or its own error, unwrapped and unmodified);
otherwise rethrow the primary error. -/
def analyzeEvidence (primary secondary : Except GenError JValue) :
    Except GenError JValue :=
  match primary with
  | .ok r => .ok r
  | .error err =>
      if isQuotaError err || isArgError err then secondary
      else .error err

/-- The sequence of model calls `analyzeEvidence` performs, in order:
always the pro call; the flash call exactly when the pro call failed with
a quota or invalid-argument condition. -/
def analyzeEvidenceModelCalls (primary : Except GenError JValue) :
    List ModelName :=
  match primary with
  | .ok _ => [.pro]
  | .error err =>
      if isQuotaError err || isArgError err then [.pro, .flash]
      else [.pro]

/-- The quota-specific message `handleCapture` shows when the caught
error message contains the marker (src/App.tsx). -/
def quotaMessage : String :=
  "The Mind Palace is at maximum capacity (Quota Reached). Please wait a few moments for the case files to clear."

/-- The generic failure message of `handleCapture` (src/App.tsx). -/
def genericMessage : String :=
  "Deductive link failed. The complexity of the subject overwhelmed the reasoning engine."

/-- The catch block of `handleCapture`:
`err.message?.includes('QUOTA_EXHAUSTED')` selects the quota message,
anything else the generic one. -/
def classifyError (e : GenError) : String :=
  if strIncludes e.message "QUOTA_EXHAUSTED" then quotaMessage
  else genericMessage

/-! ### The session-memory merge of `handleCapture`
(`[...new Set([...prev, ...result.session_memory])].slice(-10)`). -/

/-- JavaScript `Set` insertion-order iteration: keep the first occurrence
of each element, skipping elements already seen. -/
def setDedupAux (seen : List String) : List String → List String
  | [] => []
  | x :: xs =>
      if x ∈ seen then setDedupAux seen xs
      else x :: setDedupAux (x :: seen) xs

/-- `[...new Set(l)]`. -/
def setDedup (l : List String) : List String :=
  setDedupAux [] l

/-- `l.slice(-10)`: the last 10 elements (the whole list when shorter). -/
def jsSliceLast10 (l : List String) : List String :=
  l.drop (l.length - 10)

/-- The memory update of `handleCapture`:
`[...new Set([...prev, ...proposed])].slice(-10)`. -/
def mergeMemory (prev proposed : List String) : List String :=
  jsSliceLast10 (setDedup (prev ++ proposed))

/-! ### `handleCapture` state transition (src/App.tsx). -/

/-- The pieces of React state `handleCapture` touches. -/
structure AppState where
  isAnalyzing : Bool
  currentAnalysis : Option JValue
  error : Option String
  memory : List String

/-- The string entries of `result.session_memory` (typed as `string[]` in
`SherlockAnalysis`), spread into the merge. -/
def sessionMemoryStrings (result : JValue) : List String :=
  match result.getField? "session_memory" with
  | some (.arr xs) => xs.filterMap fun v =>
      match v with
      | .str s => some s
      | _ => none
  | _ => []

/-- One run of `handleCapture` given the awaited outcome of
`analyzeEvidence`: re-entrancy guard, clear error and current analysis,
then on success store the result and merge `result.session_memory` into
memory when that field is truthy; on failure set the classified error
message and leave memory untouched; `finally` clears the in-flight flag. -/
def handleCapture (s : AppState) (outcome : Except GenError JValue) : AppState :=
  if s.isAnalyzing then s
  else
    match outcome with
    | .ok result =>
        { isAnalyzing := false,
          currentAnalysis := some result,
          error := none,
          memory :=
            if jsFieldTruthy result "session_memory" then
              mergeMemory s.memory (sessionMemoryStrings result)
            else s.memory }
    | .error e =>
        { isAnalyzing := false,
          currentAnalysis := none,
          error := some (classifyError e),
          memory := s.memory }

/-! ### The per-call prompt of `analyzeEvidence` and the call site in
`handleCapture` (src/App.tsx passes three positional arguments to the
four-parameter `analyzeEvidence`). -/

/-- A dynamic JavaScript argument value as it crosses the untyped call
boundary. -/
inductive JSVal where
  | str : String → JSVal
  | strArr : List String → JSVal
  | undef : JSVal
deriving DecidableEq

/-- JavaScript string interpolation of a dynamic value inside a template
literal: an array stringifies to its comma-joined elements. -/
def jsTemplateString : JSVal → String
  | .str s => s
  | .strArr xs => String.intercalate "," xs
  | .undef => "undefined"

/-- The named parameters of
`analyzeEvidence(base64Image, mimeType, sessionId, previousMemory = [])`. -/
structure AnalyzeEvidenceParams where
  base64Image : JSVal
  mimeType : JSVal
  sessionId : JSVal
  previousMemory : JSVal
deriving DecidableEq

/-- Positional JavaScript parameter binding for `analyzeEvidence`:
missing trailing arguments are `undefined`, and the declared default `[]`
fills `previousMemory` when no fourth argument is supplied. -/
def bindParams (args : List JSVal) : AnalyzeEvidenceParams :=
  { base64Image := args.getD 0 .undef,
    mimeType := args.getD 1 .undef,
    sessionId := args.getD 2 .undef,
    previousMemory := args.getD 3 (.strArr []) }

/-- The argument list of the call in `handleCapture` (src/App.tsx):
`analyzeEvidence(base64, sessionId, memory)` — three positional
arguments. -/
def handleCaptureArgs (base64 sessionId : String) (memory : List String) :
    List JSVal :=
  [.str base64, .str sessionId, .strArr memory]

/-- The per-call prompt template of `analyzeEvidence`, with the value of
its `sessionId` parameter interpolated after "Current Session:". -/
def analyzeEvidencePromptText (sessionIdVal : JSVal) : String :=
  "Perform a deep behavioral scan. Current Session: " ++
    jsTemplateString sessionIdVal ++
    ". \n  Examine the subject\x27s clothing, posture, and environmental interaction. \n  You MUST return the scan_data object with gender, age_range, environment, attention_score, posture_score, stance, and balance."

/-! ### Live-mode capture scaling (`handleScan` in the CameraHUD
component). -/

/-- The raster output of a live capture: dimensions, encoding and
quality. -/
structure CaptureOutput where
  width : ℚ
  height : ℚ
  format : String
  quality : ℚ
deriving DecidableEq

/-- The live branch of `handleScan`:
`scale = Math.min(1, 1024 / video.videoWidth)`, both canvas dimensions
multiplied by `scale`, then `canvas.toDataURL('image/jpeg', 0.8)`. -/
def handleScanCapture (videoWidth videoHeight : ℚ) : CaptureOutput :=
  let scale := min 1 (1024 / videoWidth)
  { width := videoWidth * scale,
    height := videoHeight * scale,
    format := "image/jpeg",
    quality := 8/10 }

/-! ## Supporting lemmas -/

theorem getEntry?_setEntry_self (fs : List (String × JValue)) (k : String) (v : JValue) :
    getEntry? (setEntry fs k v) k = some v := by
  induction fs with
  | nil => simp [setEntry, getEntry?]
  | cons e rest ih =>
    obtain ⟨k₀, v₀⟩ := e
    by_cases h : k₀ = k
    · simp [setEntry, getEntry?, h]
    · simp [setEntry, getEntry?, h, ih]

theorem getEntry?_setEntry_ne (fs : List (String × JValue)) (k k₁ : String) (v : JValue)
    (h : k₁ ≠ k) : getEntry? (setEntry fs k v) k₁ = getEntry? fs k₁ := by
  induction fs with
  | nil => simp [setEntry, getEntry?, Ne.symm h]
  | cons e rest ih =>
    obtain ⟨k₀, v₀⟩ := e
    by_cases hk : k₀ = k
    · subst hk
      simp [setEntry, getEntry?, Ne.symm h]
    · simp [setEntry, getEntry?, hk, ih]

theorem mem_setDedupAux (a : String) (l : List String) : ∀ (seen : List String),
    a ∈ setDedupAux seen l ↔ a ∈ l ∧ a ∉ seen := by
  induction l with
  | nil => intro seen; simp [setDedupAux]
  | cons x xs ih =>
    intro seen
    by_cases hx : x ∈ seen
    · rw [setDedupAux, if_pos hx, ih seen]
      constructor
      · rintro ⟨h1, h2⟩
        exact ⟨List.mem_cons_of_mem _ h1, h2⟩
      · rintro ⟨h1, h2⟩
        rcases List.mem_cons.mp h1 with rfl | h1
        · exact absurd hx h2
        · exact ⟨h1, h2⟩
    · rw [setDedupAux, if_neg hx]
      simp only [List.mem_cons, ih (x :: seen)]
      constructor
      · rintro (rfl | ⟨h1, h2⟩)
        · exact ⟨Or.inl rfl, hx⟩
        · exact ⟨Or.inr h1, fun hs => h2 (Or.inr hs)⟩
      · rintro ⟨rfl | h1, h2⟩
        · exact Or.inl rfl
        · by_cases hax : a = x
          · exact Or.inl hax
          · refine Or.inr ⟨h1, fun hs => ?_⟩
            rcases hs with h | h
            · exact hax h
            · exact h2 h

theorem nodup_setDedupAux (l : List String) : ∀ (seen : List String),
    (setDedupAux seen l).Nodup := by
  induction l with
  | nil => intro seen; simp [setDedupAux]
  | cons x xs ih =>
    intro seen
    by_cases hx : x ∈ seen
    · rw [setDedupAux, if_pos hx]; exact ih seen
    · rw [setDedupAux, if_neg hx]
      refine List.nodup_cons.mpr ⟨fun hmem => ?_, ih (x :: seen)⟩
      exact ((mem_setDedupAux x xs (x :: seen)).mp hmem).2 (List.mem_cons_self x seen)

theorem pairwise_indexOf_setDedupAux (l : List String) : ∀ (seen : List String),
    (setDedupAux seen l).Pairwise fun a b => l.indexOf a < l.indexOf b := by
  induction l with
  | nil => intro seen; simp [setDedupAux]
  | cons x xs ih =>
    intro seen
    by_cases hx : x ∈ seen
    · rw [setDedupAux, if_pos hx]
      refine (ih seen).imp_of_mem ?_
      intro a b ha hb hab
      have ha₁ := (mem_setDedupAux a xs seen).mp ha
      have hb₁ := (mem_setDedupAux b xs seen).mp hb
      have hax : x ≠ a := fun h => ha₁.2 (h ▸ hx)
      have hbx : x ≠ b := fun h => hb₁.2 (h ▸ hx)
      rw [List.indexOf_cons_ne xs hax, List.indexOf_cons_ne xs hbx]
      exact Nat.succ_lt_succ hab
    · rw [setDedupAux, if_neg hx]
      refine List.pairwise_cons.mpr ⟨fun b hb => ?_, ?_⟩
      · have hb₁ := (mem_setDedupAux b xs (x :: seen)).mp hb
        have hbx : x ≠ b := fun h => hb₁.2 (h ▸ List.mem_cons_self x seen)
        rw [List.indexOf_cons_self, List.indexOf_cons_ne xs hbx]
        exact Nat.succ_pos _
      · refine (ih (x :: seen)).imp_of_mem ?_
        intro a b ha hb hab
        have ha₁ := (mem_setDedupAux a xs (x :: seen)).mp ha
        have hb₁ := (mem_setDedupAux b xs (x :: seen)).mp hb
        have hax : x ≠ a := fun h => ha₁.2 (h ▸ List.mem_cons_self x seen)
        have hbx : x ≠ b := fun h => hb₁.2 (h ▸ List.mem_cons_self x seen)
        rw [List.indexOf_cons_ne xs hax, List.indexOf_cons_ne xs hbx]
        exact Nat.succ_lt_succ hab

theorem setDedupAux_eq_nil (l : List String) : ∀ (seen : List String),
    (∀ x ∈ l, x ∈ seen) → setDedupAux seen l = [] := by
  induction l with
  | nil => intro seen _; rfl
  | cons x xs ih =>
    intro seen h
    rw [setDedupAux, if_pos (h x (List.mem_cons_self _ _))]
    exact ih seen fun y hy => h y (List.mem_cons_of_mem _ hy)

theorem setDedupAux_append_eq (l₂ : List String) : ∀ (l₁ seen : List String),
    (∀ x ∈ l₂, x ∈ seen ∨ x ∈ l₁) →
    setDedupAux seen (l₁ ++ l₂) = setDedupAux seen l₁ := by
  intro l₁
  induction l₁ with
  | nil =>
    intro seen h
    rw [List.nil_append]
    exact setDedupAux_eq_nil l₂ seen fun x hx =>
      (h x hx).resolve_right (List.not_mem_nil x)
  | cons x xs ih =>
    intro seen h
    rw [List.cons_append]
    by_cases hx : x ∈ seen
    · rw [setDedupAux, if_pos hx, setDedupAux, if_pos hx]
      refine ih seen fun y hy => ?_
      rcases h y hy with hs | hm
      · exact Or.inl hs
      · rcases List.mem_cons.mp hm with rfl | hm
        · exact Or.inl hx
        · exact Or.inr hm
    · rw [setDedupAux, if_neg hx, setDedupAux, if_neg hx]
      congr 1
      refine ih (x :: seen) fun y hy => ?_
      rcases h y hy with hs | hm
      · exact Or.inl (List.mem_cons_of_mem _ hs)
      · rcases List.mem_cons.mp hm with rfl | hm
        · exact Or.inl (List.mem_cons_self _ _)
        · exact Or.inr hm

theorem setDedupAux_eq_self (l : List String) : ∀ (seen : List String),
    l.Nodup → (∀ x ∈ l, x ∉ seen) → setDedupAux seen l = l := by
  induction l with
  | nil => intro seen _ _; rfl
  | cons x xs ih =>
    intro seen hnd h
    rw [setDedupAux, if_neg (h x (List.mem_cons_self _ _))]
    congr 1
    refine ih (x :: seen) (List.nodup_cons.mp hnd).2 fun y hy hmem => ?_
    rcases List.mem_cons.mp hmem with rfl | hmem
    · exact (List.nodup_cons.mp hnd).1 hy
    · exact h y (List.mem_cons_of_mem _ hy) hmem

theorem mergeMemory_nodup (M P : List String) : (mergeMemory M P).Nodup :=
  List.Nodup.sublist (List.drop_sublist _ _) (nodup_setDedupAux _ _)

theorem mergeMemory_length_le (M P : List String) : (mergeMemory M P).length ≤ 10 := by
  unfold mergeMemory jsSliceLast10
  rw [List.length_drop]
  omega

theorem jsFieldTruthy_isSome {v : JValue} {k : String} (h : jsFieldTruthy v k = true) :
    (v.getField? k).isSome = true := by
  unfold jsFieldTruthy at h
  cases hv : v.getField? k with
  | none => rw [hv] at h; exact absurd h (by simp)
  | some w => rfl

theorem ensureScanData_obj (pfs : List (String × JValue)) :
    ∃ qfs, ensureScanData (.obj pfs) = .obj qfs := by
  unfold ensureScanData
  by_cases h : jsFieldTruthy (.obj pfs) "scan_data"
  · exact ⟨pfs, if_pos h⟩
  · exact ⟨setEntry pfs "scan_data" defaultScanData, if_neg h⟩

theorem ensureScanData_scanData_isSome (pfs : List (String × JValue)) :
    ((ensureScanData (.obj pfs)).getField? "scan_data").isSome = true := by
  unfold ensureScanData
  by_cases h : jsFieldTruthy (.obj pfs) "scan_data"
  · rw [if_pos h]; exact jsFieldTruthy_isSome h
  · rw [if_neg h]
    show (getEntry? (setEntry pfs "scan_data" defaultScanData) "scan_data").isSome = true
    rw [getEntry?_setEntry_self]
    rfl

theorem ensureScanData_other (pfs : List (String × JValue)) (k : String)
    (h : k ≠ "scan_data") :
    (ensureScanData (.obj pfs)).getField? k = getEntry? pfs k := by
  unfold ensureScanData
  by_cases ht : jsFieldTruthy (.obj pfs) "scan_data"
  · rw [if_pos ht]; rfl
  · rw [if_neg ht]
    show getEntry? (setEntry pfs "scan_data" defaultScanData) k = getEntry? pfs k
    exact getEntry?_setEntry_ne _ _ _ _ h

theorem ensureScanData_of_missing (pfs : List (String × JValue))
    (h : getEntry? pfs "scan_data" = none) :
    (ensureScanData (.obj pfs)).getField? "scan_data" = some defaultScanData := by
  have ht : jsFieldTruthy (.obj pfs) "scan_data" = false := by
    unfold jsFieldTruthy
    show (match getEntry? pfs "scan_data" with
      | none => false
      | some w => !w.isFalsy) = false
    rw [h]
  unfold ensureScanData
  rw [ht]
  show getEntry? (setEntry pfs "scan_data" defaultScanData) "scan_data" = some defaultScanData
  exact getEntry?_setEntry_self _ _ _

theorem ensureScanData_of_obj (pfs : List (String × JValue)) (sfs : List (String × JValue))
    (h : getEntry? pfs "scan_data" = some (.obj sfs)) :
    ensureScanData (.obj pfs) = .obj pfs := by
  have ht : jsFieldTruthy (.obj pfs) "scan_data" = true := by
    unfold jsFieldTruthy
    show (match getEntry? pfs "scan_data" with
      | none => false
      | some w => !w.isFalsy) = true
    rw [h]
    rfl
  unfold ensureScanData
  rw [ht]
  rfl

theorem applyScoreCoercion_obj (fs : List (String × JValue)) :
    ∃ gfs, applyScoreCoercion (.obj fs) = .obj gfs := by
  unfold applyScoreCoercion
  cases h : (JValue.obj fs).getField? "scan_data" with
  | none => exact ⟨fs, rfl⟩
  | some sd => exact ⟨setEntry fs "scan_data" (coerceScores sd), rfl⟩

theorem applyScoreCoercion_scanData (p : JValue) :
    (applyScoreCoercion p).getField? "scan_data"
      = (p.getField? "scan_data").map coerceScores := by
  unfold applyScoreCoercion
  cases h : p.getField? "scan_data" with
  | none => rw [h]; rfl
  | some sd =>
    cases p with
    | obj fs =>
      show getEntry? (setEntry fs "scan_data" (coerceScores sd)) "scan_data"
        = some (coerceScores sd)
      exact getEntry?_setEntry_self _ _ _
    | null => exact absurd h (by simp [JValue.getField?])
    | bool b => exact absurd h (by simp [JValue.getField?])
    | num q => exact absurd h (by simp [JValue.getField?])
    | str s => exact absurd h (by simp [JValue.getField?])
    | arr xs => exact absurd h (by simp [JValue.getField?])

theorem applyScoreCoercion_other (p : JValue) (k : String) (h : k ≠ "scan_data") :
    (applyScoreCoercion p).getField? k = p.getField? k := by
  unfold applyScoreCoercion
  cases hp : p.getField? "scan_data" with
  | none => rfl
  | some sd =>
    cases p with
    | obj fs =>
      show getEntry? (setEntry fs "scan_data" (coerceScores sd)) k = getEntry? fs k
      exact getEntry?_setEntry_ne _ _ _ _ h
    | null => exact absurd hp (by simp [JValue.getField?])
    | bool b => exact absurd hp (by simp [JValue.getField?])
    | num q => exact absurd hp (by simp [JValue.getField?])
    | str s => exact absurd hp (by simp [JValue.getField?])
    | arr xs => exact absurd hp (by simp [JValue.getField?])

theorem applyDeductionDefaults_other (fs : List (String × JValue)) (k : String)
    (h : k ≠ "deductions") :
    (applyDeductionDefaults (.obj fs)).getField? k = getEntry? fs k := by
  unfold applyDeductionDefaults
  show getEntry? (setEntry fs "deductions" _) k = getEntry? fs k
  exact getEntry?_setEntry_ne _ _ _ _ h

theorem applyDeductionDefaults_deductions (fs : List (String × JValue)) :
    (applyDeductionDefaults (.obj fs)).getField? "deductions"
      = some (match getEntry? fs "deductions" with
          | some (.arr ds) => .arr (ds.map normalizeDeduction)
          | _ => .arr []) := by
  unfold applyDeductionDefaults
  show getEntry? (setEntry fs "deductions" _) "deductions" = _
  rw [getEntry?_setEntry_self]
  rfl

theorem coerceScores_eq (sd : JValue) :
    coerceScores sd = coerceScoreField (coerceScoreField sd "attention_score") "posture_score" := rfl

theorem coerceScoreField_of_none {sd : JValue} {k : String} (h : sd.getField? k = none) :
    coerceScoreField sd k = sd := by
  unfold coerceScoreField
  rw [h]

theorem coerceScoreField_getField_ne (sd : JValue) (k k₁ : String) (h : k₁ ≠ k) :
    (coerceScoreField sd k).getField? k₁ = sd.getField? k₁ := by
  unfold coerceScoreField
  cases hv : sd.getField? k with
  | none => rfl
  | some v =>
    cases sd with
    | obj fs =>
      show getEntry? (setEntry fs k _) k₁ = getEntry? fs k₁
      exact getEntry?_setEntry_ne _ _ _ _ h
    | null => exact absurd hv (by simp [JValue.getField?])
    | bool b => exact absurd hv (by simp [JValue.getField?])
    | num q => exact absurd hv (by simp [JValue.getField?])
    | str s => exact absurd hv (by simp [JValue.getField?])
    | arr xs => exact absurd hv (by simp [JValue.getField?])

theorem coerceScoreField_getField_self (fs : List (String × JValue)) (k : String)
    (v : JValue) (h : getEntry? fs k = some v) :
    (coerceScoreField (.obj fs) k).getField? k
      = some (.num (match jsParseFloatOfValue v with | some q => q | none => 1/2)) := by
  unfold coerceScoreField
  show (match getEntry? fs k with
    | none => JValue.obj fs
    | some v => (JValue.obj fs).setField k (.num (match jsParseFloatOfValue v with
        | some q => q
        | none => 1/2))).getField? k = _
  rw [h]
  show getEntry? (setEntry fs k _) k = _
  rw [getEntry?_setEntry_self]

theorem coerceScores_attention_of_none (sfs : List (String × JValue))
    (h : getEntry? sfs "attention_score" = none) :
    (coerceScores (.obj sfs)).getField? "attention_score" = none := by
  have h₀ : (JValue.obj sfs).getField? "attention_score" = none := h
  rw [coerceScores_eq, coerceScoreField_of_none h₀]
  rw [coerceScoreField_getField_ne _ _ _ (by decide)]
  exact h₀

theorem coerceScores_attention_of_some (sfs : List (String × JValue)) (v : JValue)
    (h : getEntry? sfs "attention_score" = some v) :
    (coerceScores (.obj sfs)).getField? "attention_score"
      = some (.num (match jsParseFloatOfValue v with | some q => q | none => 1/2)) := by
  rw [coerceScores_eq]
  have h₁ := coerceScoreField_getField_self sfs "attention_score" v h
  rw [coerceScoreField_getField_ne _ _ _ (by decide)]
  exact h₁

theorem coerceScoreField_getField_att (sfs : List (String × JValue)) :
    (coerceScoreField (.obj sfs) "attention_score").getField? "posture_score"
      = getEntry? sfs "posture_score" := by
  unfold coerceScoreField
  cases hv : (JValue.obj sfs).getField? "attention_score" with
  | none => rfl
  | some v =>
    show getEntry? (setEntry sfs "attention_score" _) "posture_score" = getEntry? sfs "posture_score"
    exact getEntry?_setEntry_ne _ _ _ _ (by decide)

theorem coerceScores_posture_of_none (sfs : List (String × JValue))
    (h : getEntry? sfs "posture_score" = none) :
    (coerceScores (.obj sfs)).getField? "posture_score" = none := by
  rw [coerceScores_eq]
  have hmid : (coerceScoreField (.obj sfs) "attention_score").getField? "posture_score" = none := by
    rw [coerceScoreField_getField_att]; exact h
  rw [coerceScoreField_of_none hmid]
  exact hmid

theorem coerceScoreField_obj (fs : List (String × JValue)) (k : String) :
    ∃ gfs, coerceScoreField (.obj fs) k = .obj gfs := by
  unfold coerceScoreField
  cases hv : (JValue.obj fs).getField? k with
  | none => exact ⟨fs, rfl⟩
  | some v => exact ⟨setEntry fs k _, rfl⟩

theorem coerceScores_posture_of_some (sfs : List (String × JValue)) (v : JValue)
    (h : getEntry? sfs "posture_score" = some v) :
    (coerceScores (.obj sfs)).getField? "posture_score"
      = some (.num (match jsParseFloatOfValue v with | some q => q | none => 1/2)) := by
  rw [coerceScores_eq]
  obtain ⟨gfs, hg⟩ := coerceScoreField_obj sfs "attention_score"
  have hmid : getEntry? gfs "posture_score" = some v := by
    have := coerceScoreField_getField_att sfs
    rw [hg] at this
    exact this.trans h
  rw [hg]
  exact coerceScoreField_getField_self gfs "posture_score" v hmid

theorem ensureArrField_obj (fs : List (String × JValue)) (k : String) :
    ∃ gfs, ensureArrField (.obj fs) k = .obj gfs := by
  unfold ensureArrField
  by_cases h : jsFieldTruthy (.obj fs) k = true
  · exact ⟨fs, if_pos h⟩
  · exact ⟨setEntry fs k (.arr []), if_neg h⟩

theorem ensureArrField_isSome (fs : List (String × JValue)) (k : String) :
    ((ensureArrField (.obj fs) k).getField? k).isSome = true := by
  unfold ensureArrField
  by_cases h : jsFieldTruthy (.obj fs) k = true
  · rw [if_pos h]; exact jsFieldTruthy_isSome h
  · rw [if_neg h]
    show (getEntry? (setEntry fs k (.arr [])) k).isSome = true
    rw [getEntry?_setEntry_self]
    rfl

theorem ensureArrField_of_missing (fs : List (String × JValue)) (k : String)
    (h : getEntry? fs k = none) :
    (ensureArrField (.obj fs) k).getField? k = some (.arr []) := by
  have ht : jsFieldTruthy (.obj fs) k = false := by
    unfold jsFieldTruthy
    show (match getEntry? fs k with
      | none => false
      | some w => !w.isFalsy) = false
    rw [h]
  unfold ensureArrField
  rw [ht]
  show getEntry? (setEntry fs k (.arr [])) k = some (.arr [])
  exact getEntry?_setEntry_self _ _ _

theorem ensureArrField_ne (d : JValue) (k k₁ : String) (h : k₁ ≠ k) :
    (ensureArrField d k).getField? k₁ = d.getField? k₁ := by
  unfold ensureArrField
  by_cases ht : jsFieldTruthy d k = true
  · rw [if_pos ht]
  · rw [if_neg ht]
    cases d with
    | obj fs =>
      show getEntry? (setEntry fs k (.arr [])) k₁ = getEntry? fs k₁
      exact getEntry?_setEntry_ne _ _ _ _ h
    | null => rfl
    | bool b => rfl
    | num q => rfl
    | str s => rfl
    | arr xs => rfl

theorem normalizeDeduction_evidence_present (dfs : List (String × JValue)) :
    ((normalizeDeduction (.obj dfs)).getField? "evidence").isSome = true := by
  unfold normalizeDeduction
  obtain ⟨gfs, hg⟩ := ensureArrField_obj dfs "evidence"
  rw [hg, ensureArrField_ne _ _ _ (by decide), ← hg]
  exact ensureArrField_isSome dfs "evidence"

theorem normalizeDeduction_logicSteps_present (dfs : List (String × JValue)) :
    ((normalizeDeduction (.obj dfs)).getField? "logic_steps").isSome = true := by
  unfold normalizeDeduction
  obtain ⟨gfs, hg⟩ := ensureArrField_obj dfs "evidence"
  rw [hg]
  exact ensureArrField_isSome gfs "logic_steps"

theorem normalizeDeduction_evidence_missing (dfs : List (String × JValue))
    (h : getEntry? dfs "evidence" = none) :
    (normalizeDeduction (.obj dfs)).getField? "evidence" = some (.arr []) := by
  unfold normalizeDeduction
  obtain ⟨gfs, hg⟩ := ensureArrField_obj dfs "evidence"
  rw [hg, ensureArrField_ne _ _ _ (by decide), ← hg]
  exact ensureArrField_of_missing dfs "evidence" h

theorem normalizeDeduction_logicSteps_missing (dfs : List (String × JValue))
    (h : getEntry? dfs "logic_steps" = none) :
    (normalizeDeduction (.obj dfs)).getField? "logic_steps" = some (.arr []) := by
  unfold normalizeDeduction
  obtain ⟨gfs, hg⟩ := ensureArrField_obj dfs "evidence"
  have hmid : getEntry? gfs "logic_steps" = none := by
    have := ensureArrField_ne (.obj dfs) "evidence" "logic_steps" (by decide)
    rw [hg] at this
    exact this.trans h
  rw [hg]
  exact ensureArrField_of_missing gfs "logic_steps" hmid

theorem normalizeDeduction_of_nonobj (d : JValue) (h : ∀ gfs, d ≠ .obj gfs) :
    normalizeDeduction d = d := by
  cases d with
  | obj fs => exact absurd rfl (h fs)
  | null => rfl
  | bool b => rfl
  | num q => rfl
  | str s => rfl
  | arr xs => rfl

theorem normalizeDeduction_obj_fields (d : JValue) (dfs : List (String × JValue))
    (h : normalizeDeduction d = .obj dfs) :
    (getEntry? dfs "evidence").isSome = true ∧
      (getEntry? dfs "logic_steps").isSome = true := by
  cases d with
  | obj fs =>
    constructor
    · have := normalizeDeduction_evidence_present fs
      rw [h] at this
      exact this
    · have := normalizeDeduction_logicSteps_present fs
      rw [h] at this
      exact this
  | null => exact absurd h (by rw [normalizeDeduction_of_nonobj _ (by intro gfs hc; cases hc)]; intro hc; cases hc)
  | bool b => exact absurd h (by rw [normalizeDeduction_of_nonobj _ (by intro gfs hc; cases hc)]; intro hc; cases hc)
  | num q => exact absurd h (by rw [normalizeDeduction_of_nonobj _ (by intro gfs hc; cases hc)]; intro hc; cases hc)
  | str s => exact absurd h (by rw [normalizeDeduction_of_nonobj _ (by intro gfs hc; cases hc)]; intro hc; cases hc)
  | arr xs => exact absurd h (by rw [normalizeDeduction_of_nonobj _ (by intro gfs hc; cases hc)]; intro hc; cases hc)

theorem normalizeParsed_scanData_missing (pfs : List (String × JValue))
    (h : getEntry? pfs "scan_data" = none) :
    (normalizeParsed (.obj pfs)).getField? "scan_data" = some defaultScanData := by
  unfold normalizeParsed
  obtain ⟨qfs, hq⟩ := ensureScanData_obj pfs
  obtain ⟨gfs, hg⟩ := applyScoreCoercion_obj qfs
  rw [hq, hg, applyDeductionDefaults_other _ _ (by decide)]
  have h₁ : (JValue.obj gfs).getField? "scan_data"
      = ((JValue.obj qfs).getField? "scan_data").map coerceScores := by
    rw [← hg]; exact applyScoreCoercion_scanData _
  have h₂ : (JValue.obj qfs).getField? "scan_data" = some defaultScanData := by
    rw [← hq]; exact ensureScanData_of_missing pfs h
  show (JValue.obj gfs).getField? "scan_data" = some defaultScanData
  rw [h₁, h₂]
  show some (coerceScores defaultScanData) = some defaultScanData
  rfl

theorem normalizeParsed_scanData_of_obj (pfs sfs : List (String × JValue))
    (h : getEntry? pfs "scan_data" = some (.obj sfs)) :
    (normalizeParsed (.obj pfs)).getField? "scan_data" = some (coerceScores (.obj sfs)) := by
  unfold normalizeParsed
  rw [ensureScanData_of_obj pfs sfs h]
  obtain ⟨gfs, hg⟩ := applyScoreCoercion_obj pfs
  rw [hg, applyDeductionDefaults_other _ _ (by decide)]
  have h₁ : (JValue.obj gfs).getField? "scan_data"
      = ((JValue.obj pfs).getField? "scan_data").map coerceScores := by
    rw [← hg]; exact applyScoreCoercion_scanData _
  show (JValue.obj gfs).getField? "scan_data" = some (coerceScores (.obj sfs))
  rw [h₁]
  show ((getEntry? pfs "scan_data").map coerceScores) = _
  rw [h]
  rfl

theorem normalizeParsed_scanData_isSome (pfs : List (String × JValue)) :
    ((normalizeParsed (.obj pfs)).getField? "scan_data").isSome = true := by
  unfold normalizeParsed
  obtain ⟨qfs, hq⟩ := ensureScanData_obj pfs
  obtain ⟨gfs, hg⟩ := applyScoreCoercion_obj qfs
  rw [hq, hg, applyDeductionDefaults_other _ _ (by decide)]
  have h₁ : (JValue.obj gfs).getField? "scan_data"
      = ((JValue.obj qfs).getField? "scan_data").map coerceScores := by
    rw [← hg]; exact applyScoreCoercion_scanData _
  have h₂ := ensureScanData_scanData_isSome pfs
  rw [hq] at h₂
  show ((JValue.obj gfs).getField? "scan_data").isSome = true
  rw [h₁]
  cases hx : (JValue.obj qfs).getField? "scan_data" with
  | none => rw [hx] at h₂; exact absurd h₂ (by simp)
  | some sd => rfl

theorem normalizeParsed_deductions (pfs : List (String × JValue)) :
    (normalizeParsed (.obj pfs)).getField? "deductions"
      = some (match getEntry? pfs "deductions" with
          | some (.arr ds) => .arr (ds.map normalizeDeduction)
          | _ => .arr []) := by
  unfold normalizeParsed
  obtain ⟨qfs, hq⟩ := ensureScanData_obj pfs
  obtain ⟨gfs, hg⟩ := applyScoreCoercion_obj qfs
  rw [hq, hg, applyDeductionDefaults_deductions]
  have h₁ : getEntry? gfs "deductions" = getEntry? pfs "deductions" := by
    have ha : (JValue.obj gfs).getField? "deductions"
        = (JValue.obj qfs).getField? "deductions" := by
      rw [← hg]; exact applyScoreCoercion_other _ _ (by decide)
    have hb : (JValue.obj qfs).getField? "deductions" = getEntry? pfs "deductions" := by
      rw [← hq]; exact ensureScanData_other pfs _ (by decide)
    exact ha.trans hb
  rw [h₁]

theorem normalizeParsed_deductions_empty (pfs : List (String × JValue))
    (h : isArrayEntry pfs "deductions" = false) :
    (normalizeParsed (.obj pfs)).getField? "deductions" = some (.arr []) := by
  rw [normalizeParsed_deductions]
  unfold isArrayEntry at h
  cases hv : getEntry? pfs "deductions" with
  | none => rfl
  | some v =>
    rw [hv] at h
    cases v with
    | arr ds => exact absurd h (by simp)
    | null => rfl
    | bool b => rfl
    | num q => rfl
    | str s => rfl
    | obj fs => rfl

theorem normalizeParsed_deductions_arr (pfs : List (String × JValue)) (ds : List JValue)
    (h : getEntry? pfs "deductions" = some (.arr ds)) :
    (normalizeParsed (.obj pfs)).getField? "deductions"
      = some (.arr (ds.map normalizeDeduction)) := by
  rw [normalizeParsed_deductions, h]

theorem normalizeParsed_other (pfs : List (String × JValue)) (k : String)
    (h₁ : k ≠ "scan_data") (h₂ : k ≠ "deductions") :
    (normalizeParsed (.obj pfs)).getField? k = getEntry? pfs k := by
  unfold normalizeParsed
  obtain ⟨qfs, hq⟩ := ensureScanData_obj pfs
  obtain ⟨gfs, hg⟩ := applyScoreCoercion_obj qfs
  rw [hq, hg, applyDeductionDefaults_other _ _ h₂]
  have ha : (JValue.obj gfs).getField? k = (JValue.obj qfs).getField? k := by
    rw [← hg]; exact applyScoreCoercion_other _ _ h₁
  have hb : (JValue.obj qfs).getField? k = getEntry? pfs k := by
    rw [← hq]; exact ensureScanData_other pfs _ h₁
  exact ha.trans hb

theorem jsParseFloat_eval_07 : jsParseFloat "0.7" = some (7/10) := by
  have h : jsParseFloat "0.7"
      = some ((((0 : ℕ) : ℚ) + ((7 : ℕ) : ℚ) / 10 ^ (1 : ℕ)) * 10 ^ (0 : ℤ)) := rfl
  rw [h]; norm_num

/-! ## Claim theorems -/

/-- C1: the claim says the session identity token is embedded unchanged as
the "Current Session" of every analysis prompt.  The code violates this:
`handleCapture` passes three positional arguments to the four-parameter
`analyzeEvidence`, so the session token lands in the `mimeType` parameter
and the memory array lands in the `sessionId` parameter; the prompt
therefore embeds the comma-joined memory array, not the session token. -/
theorem sessionId_prompt_code_bug :
    (bindParams (handleCaptureArgs "imageData" "SH-12345678" ["wears a hat"])).sessionId
        = JSVal.strArr ["wears a hat"] ∧
    (bindParams (handleCaptureArgs "imageData" "SH-12345678" ["wears a hat"])).mimeType
        = JSVal.str "SH-12345678" ∧
    jsTemplateString (bindParams (handleCaptureArgs "imageData" "SH-12345678" ["wears a hat"])).sessionId
        = "wears a hat" ∧
    analyzeEvidencePromptText (bindParams (handleCaptureArgs "imageData" "SH-12345678" ["wears a hat"])).sessionId
        ≠ analyzeEvidencePromptText (.str "SH-12345678") := by
  refine ⟨rfl, rfl, rfl, ?_⟩
  decide

/-- C2 (counterexample): the memory merge is not idempotent under repeated
identical proposals.  With an empty current memory and a proposal of
eleven distinct strings whose first element recurs at the end, the first
merge evicts "a"; remerging the same proposal reintroduces "a" at the
back and evicts "b". -/
theorem mergeMemory_not_idempotent :
    mergeMemory (mergeMemory [] ["a","b","c","d","e","f","g","h","i","j","k","a"])
        ["a","b","c","d","e","f","g","h","i","j","k","a"]
      ≠ mergeMemory [] ["a","b","c","d","e","f","g","h","i","j","k","a"] := by
  decide

/-- C2 (amended): the merge is idempotent under a repeated identical
proposal provided every proposed entry survives the first merge (in
particular whenever the deduplicated union does not overflow the
10-entry cap). -/
theorem mergeMemory_idempotent_of_retained (M P : List String)
    (h : ∀ x ∈ P, x ∈ mergeMemory M P) :
    mergeMemory (mergeMemory M P) P = mergeMemory M P := by
  have hnd : (mergeMemory M P).Nodup := mergeMemory_nodup M P
  have hlen : (mergeMemory M P).length ≤ 10 := mergeMemory_length_le M P
  show jsSliceLast10 (setDedup (mergeMemory M P ++ P)) = mergeMemory M P
  have h₁ : setDedup (mergeMemory M P ++ P) = setDedup (mergeMemory M P) := by
    unfold setDedup
    exact setDedupAux_append_eq P (mergeMemory M P) [] fun x hx => Or.inr (h x hx)
  have h₂ : setDedup (mergeMemory M P) = mergeMemory M P := by
    unfold setDedup
    exact setDedupAux_eq_self _ [] hnd fun x _ hx => (List.not_mem_nil x) hx
  rw [h₁, h₂]
  unfold jsSliceLast10
  have h₃ : (mergeMemory M P).length - 10 = 0 := by omega
  rw [h₃, List.drop_zero]

theorem mergeMemory_idempotent_witness :
    mergeMemory (mergeMemory ["a"] ["b"]) ["b"] = mergeMemory ["a"] ["b"] :=
  mergeMemory_idempotent_of_retained ["a"] ["b"] (by decide)

/-- C3: the claim says that when both the primary and the fallback calls
fail with a 429 / resource-exhausted condition the caller receives a
distinguishable `QuotaExhausted` classification.  The code violates this:
`analyzeEvidence` rethrows the secondary error verbatim, the marker
string `QUOTA_EXHAUSTED` tested by the caller never occurs in such an
error, and the caller therefore classifies the failure as generic. -/
theorem quotaExhausted_never_produced :
    analyzeEvidence (.error ⟨"429 RESOURCE_EXHAUSTED: Quota exceeded", some 429⟩)
        (.error ⟨"429 RESOURCE_EXHAUSTED: Quota exceeded", some 429⟩)
      = .error ⟨"429 RESOURCE_EXHAUSTED: Quota exceeded", some 429⟩ ∧
    strIncludes "429 RESOURCE_EXHAUSTED: Quota exceeded" "QUOTA_EXHAUSTED" = false ∧
    classifyError ⟨"429 RESOURCE_EXHAUSTED: Quota exceeded", some 429⟩ = genericMessage ∧
    genericMessage ≠ quotaMessage := by
  refine ⟨rfl, by decide, rfl, by decide⟩

/-- C4 (counterexample): normalization does not guarantee the full
`AnalysisResult` shape.  Normalizing the empty parsed object (the result
of a blank model response, parsed as `{}`) yields a value with no
`session_id`, no `final_assessment` and no `session_memory`; the code
returns it through an unchecked cast. -/
theorem normalizeParsed_missing_top_fields :
    (normalizeParsed (.obj [])).getField? "session_id" = none ∧
    (normalizeParsed (.obj [])).getField? "final_assessment" = none ∧
    (normalizeParsed (.obj [])).getField? "session_memory" = none :=
  ⟨rfl, rfl, rfl⟩

/-- C4 (amended): a successful return always carries a `scan_data` value
and a `deductions` array whose object entries have `evidence` and
`logic_steps` present, but the `session_id`, `final_assessment` and
`session_memory` slots are passed through from the raw parse unchecked
and may be absent. -/
theorem normalizeParsed_guaranteed_shape (pfs : List (String × JValue)) :
    ((normalizeParsed (.obj pfs)).getField? "scan_data").isSome = true ∧
    (∃ ds : List JValue,
      (normalizeParsed (.obj pfs)).getField? "deductions" = some (.arr ds) ∧
      ∀ d ∈ ds, ∀ dfs, d = JValue.obj dfs →
        (getEntry? dfs "evidence").isSome = true ∧
        (getEntry? dfs "logic_steps").isSome = true) ∧
    (∀ k, k ≠ "scan_data" → k ≠ "deductions" →
      (normalizeParsed (.obj pfs)).getField? k = getEntry? pfs k) := by
  refine ⟨normalizeParsed_scanData_isSome pfs, ?_, normalizeParsed_other pfs⟩
  obtain ⟨ds₀, hds⟩ : ∃ ds₀ : List JValue,
      (normalizeParsed (.obj pfs)).getField? "deductions"
        = some (.arr (ds₀.map normalizeDeduction)) := by
    rw [normalizeParsed_deductions]
    cases hv : getEntry? pfs "deductions" with
    | none => exact ⟨[], rfl⟩
    | some v =>
      cases v with
      | arr ds => exact ⟨ds, rfl⟩
      | null => exact ⟨[], rfl⟩
      | bool b => exact ⟨[], rfl⟩
      | num q => exact ⟨[], rfl⟩
      | str s => exact ⟨[], rfl⟩
      | obj fs => exact ⟨[], rfl⟩
  refine ⟨ds₀.map normalizeDeduction, hds, ?_⟩
  intro d hd dfs hdf
  obtain ⟨d₀, hmem, hEq⟩ := List.mem_map.mp hd
  exact normalizeDeduction_obj_fields d₀ dfs (hEq.trans hdf)

theorem normalizeParsed_guaranteed_shape_witness :
    ((normalizeParsed (.obj [])).getField? "scan_data").isSome = true :=
  (normalizeParsed_guaranteed_shape []).1

/-- C5 (counterexample): a missing score is not coerced to 0.5.  When
`scan_data` is present but has no `attention_score`, the coercion loop
skips the key (guarded by `!== undefined`) and the normalized result
still has no `attention_score`. -/
theorem missing_score_left_absent :
    (normalizeParsed (.obj [("scan_data", .obj [("gender", .str "Unknown")])])).getField? "scan_data"
      = some (.obj [("gender", .str "Unknown")]) ∧
    ((normalizeParsed (.obj [("scan_data", .obj [("gender", .str "Unknown")])])).getField? "scan_data").bind
      (fun sd => sd.getField? "attention_score") = none :=
  ⟨rfl, rfl⟩

/-- C5 (amended): for a parsed response whose `scan_data` is an object,
a score field present as a numeric string is coerced to the number it
denotes, a present unparseable string is coerced to 0.5, a present number
is kept, and a missing score field stays absent (the 0.5 default for
absent scores arises only through the full default object when
`scan_data` itself is missing). -/
theorem score_coercion_spec (pfs sfs : List (String × JValue))
    (h : getEntry? pfs "scan_data" = some (.obj sfs)) :
    (normalizeParsed (.obj pfs)).getField? "scan_data" = some (coerceScores (.obj sfs)) ∧
    (getEntry? sfs "attention_score" = none →
      (coerceScores (.obj sfs)).getField? "attention_score" = none) ∧
    (∀ s, getEntry? sfs "attention_score" = some (.str s) →
      (coerceScores (.obj sfs)).getField? "attention_score"
        = some (.num (match jsParseFloat s with | some q => q | none => 1/2))) ∧
    (∀ q, getEntry? sfs "attention_score" = some (.num q) →
      (coerceScores (.obj sfs)).getField? "attention_score" = some (.num q)) ∧
    (getEntry? sfs "posture_score" = none →
      (coerceScores (.obj sfs)).getField? "posture_score" = none) ∧
    (∀ s, getEntry? sfs "posture_score" = some (.str s) →
      (coerceScores (.obj sfs)).getField? "posture_score"
        = some (.num (match jsParseFloat s with | some q => q | none => 1/2))) ∧
    (∀ q, getEntry? sfs "posture_score" = some (.num q) →
      (coerceScores (.obj sfs)).getField? "posture_score" = some (.num q)) := by
  refine ⟨normalizeParsed_scanData_of_obj pfs sfs h,
    coerceScores_attention_of_none sfs, ?_, ?_,
    coerceScores_posture_of_none sfs, ?_, ?_⟩
  · intro s hs; exact coerceScores_attention_of_some sfs _ hs
  · intro q hq; exact coerceScores_attention_of_some sfs _ hq
  · intro s hs; exact coerceScores_posture_of_some sfs _ hs
  · intro q hq; exact coerceScores_posture_of_some sfs _ hq

theorem score_coercion_spec_witness :
    (normalizeParsed (.obj [("scan_data", .obj [("attention_score", .str "0.7")])])).getField? "scan_data"
      = some (coerceScores (.obj [("attention_score", .str "0.7")])) ∧
    (coerceScores (.obj [("attention_score", .str "0.7")])).getField? "attention_score"
      = some (.num (7/10)) := by
  refine ⟨(score_coercion_spec [("scan_data", .obj [("attention_score", .str "0.7")])]
    [("attention_score", .str "0.7")] rfl).1, ?_⟩
  have h := (score_coercion_spec [("scan_data", .obj [("attention_score", .str "0.7")])]
    [("attention_score", .str "0.7")] rfl).2.2.1 "0.7" rfl
  rw [jsParseFloat_eval_07] at h
  exact h

/-- C6: the flash fallback call happens if and only if the pro call fails
with a quota (429 / RESOURCE_EXHAUSTED) or argument-shape (400 /
INVALID_ARGUMENT) condition; any other primary failure propagates
unchanged with no fallback call; at most one fallback call is made and at
most two model calls in total occur per capture. -/
theorem analyzeEvidence_fallback_policy (primary secondary : Except GenError JValue) :
    (analyzeEvidenceModelCalls primary).count ModelName.flash ≤ 1 ∧
    (analyzeEvidenceModelCalls primary).length ≤ 2 ∧
    (ModelName.flash ∈ analyzeEvidenceModelCalls primary ↔
      ∃ e, primary = .error e ∧ (isQuotaError e || isArgError e) = true) ∧
    (∀ e, primary = .error e → (isQuotaError e || isArgError e) = false →
      analyzeEvidence primary secondary = .error e) ∧
    (∀ e, primary = .error e → (isQuotaError e || isArgError e) = true →
      analyzeEvidence primary secondary = secondary) := by
  cases primary with
  | ok r =>
    refine ⟨?_, ?_, ?_, ?_, ?_⟩
    · show ([ModelName.pro].count ModelName.flash) ≤ 1
      decide
    · show ([ModelName.pro].length) ≤ 2
      decide
    · constructor
      · intro hmem
        exact absurd hmem (by decide : ModelName.flash ∉ [ModelName.pro])
      · rintro ⟨e, he, -⟩
        exact absurd he (by simp)
    · intro e he
      exact absurd he (by simp)
    · intro e he
      exact absurd he (by simp)
  | error e₀ =>
    by_cases hc : (isQuotaError e₀ || isArgError e₀) = true
    · have hcalls : analyzeEvidenceModelCalls (.error e₀) = [ModelName.pro, ModelName.flash] := by
        show (if (isQuotaError e₀ || isArgError e₀) = true
          then [ModelName.pro, ModelName.flash] else [ModelName.pro]) = _
        rw [if_pos hc]
      rw [hcalls]
      refine ⟨by decide, by decide, ?_, ?_, ?_⟩
      · constructor
        · intro _
          exact ⟨e₀, rfl, hc⟩
        · intro _
          decide
      · intro e he hk
        injection he with h
        subst h
        exact Bool.noConfusion (hc.symm.trans hk)
      · intro e he _
        injection he with h
        subst h
        show (if (isQuotaError e₀ || isArgError e₀) = true
          then secondary else Except.error e₀) = secondary
        rw [if_pos hc]
    · have hc₁ : (isQuotaError e₀ || isArgError e₀) = false := by
        revert hc
        cases isQuotaError e₀ || isArgError e₀ <;> simp
      have hcalls : analyzeEvidenceModelCalls (.error e₀) = [ModelName.pro] := by
        show (if (isQuotaError e₀ || isArgError e₀) = true
          then [ModelName.pro, ModelName.flash] else [ModelName.pro]) = _
        rw [if_neg hc]
      rw [hcalls]
      refine ⟨by decide, by decide, ?_, ?_, ?_⟩
      · constructor
        · intro hmem
          exact absurd hmem (by decide : ModelName.flash ∉ [ModelName.pro])
        · rintro ⟨e, he, hk⟩
          injection he with h
          subst h
          exact Bool.noConfusion (hk.symm.trans hc₁)
      · intro e he _
        injection he with h
        subst h
        show (if (isQuotaError e₀ || isArgError e₀) = true
          then secondary else Except.error e₀) = Except.error e₀
        rw [if_neg hc]
      · intro e he hk
        injection he with h
        subst h
        exact Bool.noConfusion (hk.symm.trans hc₁)

theorem analyzeEvidence_fallback_policy_witness :
    analyzeEvidence (.error ⟨"401 UNAUTHENTICATED", some 401⟩) (.ok (.obj []))
      = .error ⟨"401 UNAUTHENTICATED", some 401⟩ :=
  (analyzeEvidence_fallback_policy (.error ⟨"401 UNAUTHENTICATED", some 401⟩)
    (.ok (.obj []))).2.2.2.1 ⟨"401 UNAUTHENTICATED", some 401⟩ rfl (by decide)

theorem setDedup_length (l : List String) : (setDedup l).length = l.toFinset.card := by
  have hnd : (setDedup l).Nodup := nodup_setDedupAux l []
  have hfs : (setDedup l).toFinset = l.toFinset := by
    ext x
    simp only [List.mem_toFinset]
    exact ⟨fun h => ((mem_setDedupAux x l []).mp h).1,
      fun h => (mem_setDedupAux x l []).mpr ⟨h, List.not_mem_nil x⟩⟩
  rw [← hfs, List.toFinset_card_of_nodup hnd]

theorem mergeMemory_length_eq (M P : List String) :
    (mergeMemory M P).length = min 10 ((M ++ P).toFinset.card) := by
  unfold mergeMemory jsSliceLast10
  rw [List.length_drop, ← setDedup_length (M ++ P)]
  omega

theorem mergeMemory_mem_of_card_le (M P : List String) (x : String) (hx : x ∈ M ++ P)
    (hcard : (M ++ P).toFinset.card ≤ 10) : x ∈ mergeMemory M P := by
  have hd : (setDedup (M ++ P)).length ≤ 10 := by
    rw [setDedup_length]; exact hcard
  show x ∈ (setDedup (M ++ P)).drop ((setDedup (M ++ P)).length - 10)
  have h0 : (setDedup (M ++ P)).length - 10 = 0 := by omega
  rw [h0, List.drop_zero]
  exact (mem_setDedupAux x (M ++ P) []).mpr ⟨hx, List.not_mem_nil x⟩

theorem mergeMemory_evicted_overflow (M P : List String) (x : String) (hx : x ∈ M ++ P)
    (hnot : x ∉ mergeMemory M P) : 10 < (M ++ P).toFinset.card := by
  by_contra hle
  push_neg at hle
  exact hnot (mergeMemory_mem_of_card_le M P x hx hle)

/-- C7: for every current memory of at most 10 entries and every
proposal, the merged memory has no duplicates, has at most 10 entries,
draws all entries from the inputs, orders them by first occurrence in the
concatenated input, and on overflow evicts exactly the entries whose
first occurrence is earliest.  The retention conjuncts make the result
categorical: the merge keeps exactly min(10, number of distinct strings)
entries, keeps every string when at most 10 are distinct, and evicts a
string only on overflow — together with the eviction-order conjunct the
entries are therefore exactly the latest-first-seen 10 distinct strings. -/
theorem mergeMemory_invariants (M P : List String) (hM : M.length ≤ 10) :
    (mergeMemory M P).Nodup ∧
    (mergeMemory M P).length ≤ 10 ∧
    (∀ x ∈ mergeMemory M P, x ∈ M ++ P) ∧
    (mergeMemory M P).Pairwise (fun a b => (M ++ P).indexOf a < (M ++ P).indexOf b) ∧
    (∀ x ∈ M ++ P, x ∉ mergeMemory M P →
      ∀ y ∈ mergeMemory M P, (M ++ P).indexOf x < (M ++ P).indexOf y) ∧
    (mergeMemory M P).length = min 10 ((M ++ P).toFinset.card) ∧
    (∀ x ∈ M ++ P, (M ++ P).toFinset.card ≤ 10 → x ∈ mergeMemory M P) ∧
    (∀ x ∈ M ++ P, x ∉ mergeMemory M P → 10 < (M ++ P).toFinset.card) := by
  refine ⟨mergeMemory_nodup M P, mergeMemory_length_le M P, ?_, ?_, ?_,
    mergeMemory_length_eq M P, fun x hx hcard => mergeMemory_mem_of_card_le M P x hx hcard,
    fun x hx hnot => mergeMemory_evicted_overflow M P x hx hnot⟩
  · intro x hx
    have hx₁ : x ∈ (setDedup (M ++ P)).drop ((setDedup (M ++ P)).length - 10) := hx
    have hx₂ : x ∈ setDedup (M ++ P) := (List.drop_sublist _ _).subset hx₁
    exact ((mem_setDedupAux x (M ++ P) []).mp hx₂).1
  · exact List.Pairwise.sublist (List.drop_sublist _ _)
      (pairwise_indexOf_setDedupAux (M ++ P) [])
  · intro x hxm hxnot y hy
    have hxd : x ∈ setDedup (M ++ P) :=
      (mem_setDedupAux x (M ++ P) []).mpr ⟨hxm, List.not_mem_nil x⟩
    have hy₁ : y ∈ (setDedup (M ++ P)).drop ((setDedup (M ++ P)).length - 10) := hy
    have hxnot₁ : x ∉ (setDedup (M ++ P)).drop ((setDedup (M ++ P)).length - 10) := hxnot
    have hsplit := List.take_append_drop ((setDedup (M ++ P)).length - 10) (setDedup (M ++ P))
    have hxd₁ : x ∈ (setDedup (M ++ P)).take ((setDedup (M ++ P)).length - 10)
        ++ (setDedup (M ++ P)).drop ((setDedup (M ++ P)).length - 10) := by
      rw [hsplit]; exact hxd
    have hxtake : x ∈ (setDedup (M ++ P)).take ((setDedup (M ++ P)).length - 10) := by
      rcases List.mem_append.mp hxd₁ with h | h
      · exact h
      · exact absurd h hxnot₁
    have hpw : ((setDedup (M ++ P)).take ((setDedup (M ++ P)).length - 10)
        ++ (setDedup (M ++ P)).drop ((setDedup (M ++ P)).length - 10)).Pairwise
        (fun a b => (M ++ P).indexOf a < (M ++ P).indexOf b) := by
      rw [hsplit]
      exact pairwise_indexOf_setDedupAux (M ++ P) []
    exact (List.pairwise_append.mp hpw).2.2 x hxtake y hy₁

theorem mergeMemory_invariants_witness :
    (mergeMemory ["a"] ["b"]).Nodup ∧
    (mergeMemory ["a"] ["b"]).length = min 10 (((["a"] : List String) ++ ["b"]).toFinset.card) ∧
    "a" ∈ mergeMemory ["a"] ["b"] ∧
    "b" ∈ mergeMemory ["a"] ["b"] :=
  ⟨(mergeMemory_invariants ["a"] ["b"] (by decide)).1,
   (mergeMemory_invariants ["a"] ["b"] (by decide)).2.2.2.2.2.1,
   (mergeMemory_invariants ["a"] ["b"] (by decide)).2.2.2.2.2.2.1 "a" (by decide) (by decide),
   (mergeMemory_invariants ["a"] ["b"] (by decide)).2.2.2.2.2.2.1 "b" (by decide) (by decide)⟩

/-- C8 (counterexample): the scale factor `min(1, 1024 / videoWidth)`
only bounds the width.  For a portrait 720x1280 source frame the scale is
1 and the captured raster is 720x1280, whose longer dimension exceeds
1024. -/
theorem portrait_capture_exceeds_bound :
    (handleScanCapture 720 1280).width = 720 ∧
    (handleScanCapture 720 1280).height = 1280 ∧
    1024 < max (handleScanCapture 720 1280).width (handleScanCapture 720 1280).height := by
  refine ⟨?_, ?_, ?_⟩ <;> norm_num [handleScanCapture]

/-- C8 (amended): a live capture from a frame of width w > 0 scales both
dimensions by `min(1, 1024 / w)` (preserving aspect ratio), bounds the
captured width by 1024, bounds the longer dimension by 1024 whenever the
frame is landscape (h ≤ w), and encodes as JPEG at quality 0.8. -/
theorem handleScanCapture_spec (w h : ℚ) (hw : 0 < w) (hh : 0 ≤ h) :
    (handleScanCapture w h).width = w * min 1 (1024 / w) ∧
    (handleScanCapture w h).height = h * min 1 (1024 / w) ∧
    (handleScanCapture w h).width ≤ 1024 ∧
    (h ≤ w → max (handleScanCapture w h).width (handleScanCapture w h).height ≤ 1024) ∧
    (handleScanCapture w h).format = "image/jpeg" ∧
    (handleScanCapture w h).quality = 8/10 := by
  have hscale_nonneg : 0 ≤ min 1 (1024 / w) :=
    le_min (by norm_num) (div_nonneg (by norm_num) hw.le)
  have hwidth : w * min 1 (1024 / w) ≤ 1024 := by
    rcases min_cases 1 (1024 / w) with ⟨hmin, hle⟩ | ⟨hmin, hlt⟩
    · rw [hmin, mul_one]
      exact (one_le_div hw).mp hle
    · rw [hmin]
      rw [mul_div_assoc']
      rw [mul_comm]
      rw [mul_div_assoc]
      rw [div_self hw.ne']
      rw [mul_one]
  refine ⟨rfl, rfl, hwidth, ?_, rfl, rfl⟩
  intro hhw
  have hheight : h * min 1 (1024 / w) ≤ w * min 1 (1024 / w) :=
    mul_le_mul_of_nonneg_right hhw hscale_nonneg
  exact max_le hwidth (hheight.trans hwidth)

theorem handleScanCapture_spec_witness :
    (handleScanCapture 1280 720).width ≤ 1024 ∧
    max (handleScanCapture 1280 720).width (handleScanCapture 1280 720).height ≤ 1024 ∧
    (handleScanCapture 1280 720).format = "image/jpeg" ∧
    (handleScanCapture 1280 720).quality = 8/10 :=
  ⟨(handleScanCapture_spec 1280 720 (by norm_num) (by norm_num)).2.2.1,
   (handleScanCapture_spec 1280 720 (by norm_num) (by norm_num)).2.2.2.1 (by norm_num),
   (handleScanCapture_spec 1280 720 (by norm_num) (by norm_num)).2.2.2.2.1,
   (handleScanCapture_spec 1280 720 (by norm_num) (by norm_num)).2.2.2.2.2⟩

/-- C9: normalization substitutes the full neutral-default ScanData when
`scan_data` is missing, replaces a missing or non-array `deductions` by
the empty array, maps the per-deduction defaults over a present array,
inserts an empty list for a missing `evidence` or `logic_steps` of an
object entry, and leaves both lists present on every normalized object
entry. -/
theorem normalization_defaults :
    (∀ pfs, getEntry? pfs "scan_data" = none →
      (normalizeParsed (.obj pfs)).getField? "scan_data" = some defaultScanData) ∧
    (∀ pfs, isArrayEntry pfs "deductions" = false →
      (normalizeParsed (.obj pfs)).getField? "deductions" = some (.arr [])) ∧
    (∀ pfs ds, getEntry? pfs "deductions" = some (.arr ds) →
      (normalizeParsed (.obj pfs)).getField? "deductions"
        = some (.arr (ds.map normalizeDeduction))) ∧
    (∀ dfs, getEntry? dfs "evidence" = none →
      (normalizeDeduction (.obj dfs)).getField? "evidence" = some (.arr [])) ∧
    (∀ dfs, getEntry? dfs "logic_steps" = none →
      (normalizeDeduction (.obj dfs)).getField? "logic_steps" = some (.arr [])) ∧
    (∀ dfs, ((normalizeDeduction (.obj dfs)).getField? "evidence").isSome = true ∧
      ((normalizeDeduction (.obj dfs)).getField? "logic_steps").isSome = true) :=
  ⟨normalizeParsed_scanData_missing, normalizeParsed_deductions_empty,
   normalizeParsed_deductions_arr, normalizeDeduction_evidence_missing,
   normalizeDeduction_logicSteps_missing,
   fun dfs => ⟨normalizeDeduction_evidence_present dfs,
     normalizeDeduction_logicSteps_present dfs⟩⟩

theorem normalization_defaults_witness :
    (normalizeParsed (.obj [])).getField? "scan_data" = some defaultScanData :=
  normalization_defaults.1 [] rfl

/-- C10: whenever the analysis pipeline fails (any error propagated out of
`analyzeEvidence`, primary or fallback), `handleCapture` leaves the
session memory exactly unchanged; the memory merge runs only on a
successful result. -/
theorem sessionMemory_untouched_on_failure (s : AppState)
    (primary secondary : Except GenError JValue) (e : GenError)
    (h : analyzeEvidence primary secondary = .error e) :
    (handleCapture s (analyzeEvidence primary secondary)).memory = s.memory := by
  rw [h]
  unfold handleCapture
  by_cases hA : s.isAnalyzing = true
  · rw [if_pos hA]
  · rw [if_neg hA]

theorem sessionMemory_untouched_on_failure_witness :
    (handleCapture ⟨false, none, none, ["x"]⟩
      (analyzeEvidence (.error ⟨"boom", none⟩) (.ok (.obj [])))).memory = ["x"] :=
  sessionMemory_untouched_on_failure ⟨false, none, none, ["x"]⟩
    (.error ⟨"boom", none⟩) (.ok (.obj [])) ⟨"boom", none⟩ rfl
